import Mathlib

/-!
# Verification of the BrainPy pluggable native-operator runtime

Shallow embedding, in Lean 4, of the operator-registration / dispatch /
fallback machinery of the BrainPy repository:

* `brainpy/math/operators.py` and `brainpy/math/operators/syn2post.py`
  (segment reductions, pre-to-post scatter operators, event-driven operators);
* `extensions/brainpylib/operator/cpu_op.py` (operator registry, abstract
  evaluation, eager execution, XLA translation rule);
* `brainpy/_src/dependency_check.py` (the version-gated extension loader).

Arrays of floating-point values are modelled as lists of rationals (`ℚ`)
for the executable operators, and as lists of reals (`ℝ`) for the softmax
operator, whose claim is stated over idealized real arithmetic.
-/

namespace BrainPy

/-! ## Generic scatter / segment-reduction machinery

`jax.ops.segment_sum` (and `.add`/`.multiply`/`.min`/`.max` on `array.at`)
perform an indexed scatter: starting from an initial output buffer, each
`(value, index)` pair combines `value` into `out[index]` with the binary
operation.  `scatterPairs` is that operational semantics; out-of-range
indices leave the buffer unchanged (in-range indices are the only case the
source exercises). -/

def scatterPairs (op : α → α → α) : List (α × ℕ) → List α → List α
  | [], out => out
  | p :: rest, out =>
      scatterPairs op rest
        (match out.get? p.2 with
          | some x => out.set p.2 (op x p.1)
          | none => out)

/-- Segment reduction: scatter `vs.zip ids` into a buffer of `n` copies of
`ini` using `op`.  With `op = (+), ini = 0` this is `jax.ops.segment_sum`. -/
def segReduce (op : α → α → α) (ini : α) (vs : List α) (ids : List ℕ) (n : ℕ) : List α :=
  scatterPairs op (vs.zip ids) (List.replicate n ini)

theorem scatterPairs_length (op : α → α → α) (ps : List (α × ℕ)) (out : List α) :
    (scatterPairs op ps out).length = out.length := by
  induction ps generalizing out with
  | nil => rfl
  | cons p rest ih =>
      simp only [scatterPairs]
      cases h : out.get? p.2 with
      | none => simp [ih]
      | some x => simp [ih]

/-- The value a scatter fold leaves at position `g` is the left fold of `op`
over the values whose index equals `g`, starting from the buffer's initial
value at `g`. -/
theorem scatterPairs_getD (op : α → α → α) (ps : List (α × ℕ)) (out : List α)
    (g : ℕ) (d : α) (hg : g < out.length) :
    (scatterPairs op ps out).getD g d =
      ((ps.filter (fun p => p.2 = g)).map Prod.fst).foldl op (out.getD g d) := by
  induction ps generalizing out with
  | nil => rfl
  | cons p rest ih =>
      by_cases hpg : p.2 = g
      · subst hpg
        have hget : out.get? p.2 = some (out.get ⟨p.2, hg⟩) := List.get?_eq_get hg
        have hstep : scatterPairs op (p :: rest) out
            = scatterPairs op rest (out.set p.2 (op (out.get ⟨p.2, hg⟩) p.1)) := by
          simp only [scatterPairs, hget]
        rw [hstep, ih _ (by simpa using hg)]
        have h1 : (out.set p.2 (op (out.get ⟨p.2, hg⟩) p.1)).getD p.2 d
            = op (out.get ⟨p.2, hg⟩) p.1 := by
          rw [List.getD_eq_getElem?_getD, List.getElem?_set_self hg]
          rfl
        have h2 : out.getD p.2 d = out.get ⟨p.2, hg⟩ := by
          rw [List.getD_eq_getElem?_getD, List.getElem?_eq_getElem hg]
          rfl
        rw [h1, h2, List.filter_cons_of_pos (by simp), List.map_cons, List.foldl_cons]
      · have hfilter : List.filter (fun q => decide (q.2 = g)) (p :: rest)
            = List.filter (fun q => decide (q.2 = g)) rest :=
          List.filter_cons_of_neg (by simpa using hpg)
        cases hget : out.get? p.2 with
        | none =>
            have hstep : scatterPairs op (p :: rest) out = scatterPairs op rest out := by
              simp only [scatterPairs, hget]
            rw [hstep, ih _ hg, hfilter]
        | some x =>
            have hstep : scatterPairs op (p :: rest) out
                = scatterPairs op rest (out.set p.2 (op x p.1)) := by
              simp only [scatterPairs, hget]
            have hsame : (out.set p.2 (op x p.1)).getD g d = out.getD g d := by
              rw [List.getD_eq_getElem?_getD, List.getD_eq_getElem?_getD,
                List.getElem?_set_ne (by omega)]
            rw [hstep, ih _ (by simpa using hg), hsame, hfilter]

theorem segReduce_length (op : α → α → α) (ini : α) (vs : List α) (ids : List ℕ) (n : ℕ) :
    (segReduce op ini vs ids n).length = n := by
  simp [segReduce, scatterPairs_length]

theorem foldl_add_eq_sum [AddMonoid α] (l : List α) (a : α) :
    l.foldl (· + ·) a = a + l.sum := by
  induction l generalizing a with
  | nil => simp
  | cons x xs ih => simp [ih, add_assoc]

/-- Closed form of the segment sum: position `g` holds the sum of the values
paired with index `g`. -/
theorem segSum_getD [AddMonoid α] (vs : List α) (ids : List ℕ) (n : ℕ) (g : ℕ) (hg : g < n) :
    (segReduce (· + ·) 0 vs ids n).getD g 0 =
      (((vs.zip ids).filter (fun p => p.2 = g)).map Prod.fst).sum := by
  unfold segReduce
  rw [scatterPairs_getD _ _ _ _ _ (by simpa using hg)]
  rw [foldl_add_eq_sum]
  simp [List.getD_eq_getElem?_getD, List.getElem?_replicate, hg]

/-! ## Python-level errors raised by the runtime -/

inductive PyError where
  | importError : String → PyError
  | systemError : String → PyError
  | packageMissing : String → PyError
  | mathError : String → PyError
  | valueError : String → PyError
deriving DecidableEq, Repr

/-! ## `syn2post` segment operators (`brainpy/math/operators.py`, also
duplicated verbatim in `brainpy/math/operators/syn2post.py`)

The `indices_are_sorted` flag is a performance hint to the backend and does
not change results, so it is not modelled.  Values are already numeric in
the model, so the bool-to-int32 dtype promotion is the identity. -/

def syn2post_sum (syn_values : List ℚ) (post_ids : List ℕ) (post_num : ℕ) : List ℚ :=
  segReduce (· + ·) 0 syn_values post_ids post_num

/-- Embeds `syn2post_mean`: `nan_to_num(segment_sum(values) / segment_sum(ones))`.
The only non-finite case of the division is `0/0` (an untouched group has a
zero numerator as well), which `jnp.nan_to_num` maps to `0`; the embedding
makes that case explicit. -/
def syn2post_mean (syn_values : List ℚ) (post_ids : List ℕ) (post_num : ℕ) : List ℚ :=
  let nominator := segReduce (· + ·) 0 syn_values post_ids post_num
  let denominator :=
    segReduce (· + ·) 0 (List.replicate syn_values.length (1 : ℚ)) post_ids post_num
  List.zipWith (fun a b => if b = 0 then 0 else a / b) nominator denominator

/-! ## `pre2post` scatter operators (`brainpy/math/operators.py`) -/

/-- Embeds `_raise_pre_ids_is_none`: raises `MathError` when `pre_ids` is
absent. -/
def _raise_pre_ids_is_none : Option (List ℕ) → Except PyError Unit
  | none => .error (.mathError
      "pre2post synaptic computation needs pre_ids when providing heterogeneous pre_values")
  | some _ => .ok ()

/-- A value that is either a scalar (`jnp.ndim == 0`) or a 1-d array. -/
inductive PreValues where
  | scalar : ℚ → PreValues
  | array : List ℚ → PreValues
deriving DecidableEq, Repr

/-- Fancy indexing `values[ids]` (indices in range in all uses proved here). -/
def gatherIdx (vs : List ℚ) (ids : List ℕ) : List ℚ :=
  ids.map (fun i => vs.getD i 0)

/-- Embeds `pre2syn`: scalar values broadcast as `ones(len(pre_ids)) * v`; array
values are gathered with `pre_values[pre_ids]` (the vmapped lambda). -/
def pre2syn (pre_values : PreValues) (pre_ids : List ℕ) : List ℚ :=
  match pre_values with
  | .scalar v => (List.replicate pre_ids.length (1 : ℚ)).map (fun o => o * v)
  | .array vs => gatherIdx vs pre_ids

def pre2post_sum (pre_values : PreValues) (post_num : ℕ) (post_ids : List ℕ)
    (pre_ids : Option (List ℕ)) : Except PyError (List ℚ) :=
  match pre_values with
  | .scalar v =>
      .ok (scatterPairs (· + ·) ((List.replicate post_ids.length v).zip post_ids)
            (List.replicate post_num 0))
  | .array vs =>
      (_raise_pre_ids_is_none pre_ids).bind (fun _ =>
        .ok (scatterPairs (· + ·) ((gatherIdx vs (pre_ids.getD [])).zip post_ids)
              (List.replicate post_num 0)))

def pre2post_prod (pre_values : PreValues) (post_num : ℕ) (post_ids : List ℕ)
    (pre_ids : Option (List ℕ)) : Except PyError (List ℚ) :=
  match pre_values with
  | .scalar v =>
      .ok (scatterPairs (· * ·) ((List.replicate post_ids.length v).zip post_ids)
            (List.replicate post_num 0))
  | .array vs =>
      (_raise_pre_ids_is_none pre_ids).bind (fun _ =>
        .ok (scatterPairs (· * ·) ((gatherIdx vs (pre_ids.getD [])).zip post_ids)
              (List.replicate post_num 0)))

def pre2post_min (pre_values : PreValues) (post_num : ℕ) (post_ids : List ℕ)
    (pre_ids : Option (List ℕ)) : Except PyError (List ℚ) :=
  match pre_values with
  | .scalar v =>
      .ok (scatterPairs min ((List.replicate post_ids.length v).zip post_ids)
            (List.replicate post_num 0))
  | .array vs =>
      (_raise_pre_ids_is_none pre_ids).bind (fun _ =>
        .ok (scatterPairs min ((gatherIdx vs (pre_ids.getD [])).zip post_ids)
              (List.replicate post_num 0)))

def pre2post_max (pre_values : PreValues) (post_num : ℕ) (post_ids : List ℕ)
    (pre_ids : Option (List ℕ)) : Except PyError (List ℚ) :=
  match pre_values with
  | .scalar v =>
      .ok (scatterPairs max ((List.replicate post_ids.length v).zip post_ids)
            (List.replicate post_num 0))
  | .array vs =>
      (_raise_pre_ids_is_none pre_ids).bind (fun _ =>
        .ok (scatterPairs max ((gatherIdx vs (pre_ids.getD [])).zip post_ids)
              (List.replicate post_num 0)))

/-- Embeds `pre2post_mean`: scalar value is written (`.set`, not accumulated) at the
unique post ids (`out.at[jnp.unique(post_ids)].set(v)`); array values go
through `pre2syn` then `syn2post_mean`. -/
def pre2post_mean (pre_values : PreValues) (post_num : ℕ) (post_ids : List ℕ)
    (pre_ids : Option (List ℕ)) : Except PyError (List ℚ) :=
  match pre_values with
  | .scalar v =>
      .ok (scatterPairs (fun _ newv => newv)
            ((List.replicate post_ids.dedup.length v).zip post_ids.dedup)
            (List.replicate post_num 0))
  | .array vs =>
      (_raise_pre_ids_is_none pre_ids).bind (fun _ =>
        .ok (syn2post_mean (pre2syn (.array vs) (pre_ids.getD [])) post_ids post_num))

/-! ## Supporting lemmas for the segment operators -/

theorem filter_snd_zip_length (vs : List α) (ws : List β) (ids : List ℕ) (g : ℕ)
    (h1 : vs.length = ids.length) (h2 : ws.length = ids.length) :
    ((vs.zip ids).filter (fun p => p.2 = g)).length
      = ((ws.zip ids).filter (fun p => p.2 = g)).length := by
  induction ids generalizing vs ws with
  | nil =>
      cases vs <;> cases ws <;> simp_all
  | cons i is ih =>
      cases vs with
      | nil => simp at h1
      | cons x xs =>
          cases ws with
          | nil => simp at h2
          | cons y ys =>
              simp only [List.zip_cons_cons, List.filter_cons]
              by_cases hig : i = g
              · simp [hig, ih xs ys (by simpa using h1) (by simpa using h2)]
              · simp [hig, ih xs ys (by simpa using h1) (by simpa using h2)]

theorem sum_map_fst_ones (l : List (ℚ × ℕ)) (h : ∀ x ∈ l, x.1 = 1) :
    (l.map Prod.fst).sum = (l.length : ℚ) := by
  induction l with
  | nil => simp
  | cons x xs ih =>
      have hx : x.1 = 1 := h x (by simp)
      have ihx := ih (fun y hy => h y (by simp [hy]))
      simp [hx, ihx]
      ring

/-- The denominator segment-sum of `ones_like(values)` counts, per group, the
number of synapses mapped to that group. -/
theorem segSum_ones_getD (vs : List ℚ) (ids : List ℕ) (n : ℕ) (g : ℕ)
    (hg : g < n) (hlen : vs.length = ids.length) :
    (segReduce (· + ·) 0 (List.replicate vs.length (1 : ℚ)) ids n).getD g 0
      = (((vs.zip ids).filter (fun p => p.2 = g)).length : ℚ) := by
  rw [segSum_getD _ _ _ _ hg]
  rw [sum_map_fst_ones]
  · rw [filter_snd_zip_length (List.replicate vs.length (1 : ℚ)) vs ids g
      (by simpa using hlen) hlen]
  · intro x hx
    have hx' := List.mem_of_mem_filter hx
    exact List.eq_of_mem_replicate (List.of_mem_zip hx').1

theorem zipWith_getD (f : ℚ → ℚ → ℚ) (a b : List ℚ) (g : ℕ)
    (ha : g < a.length) (hb : g < b.length) :
    (List.zipWith f a b).getD g 0 = f (a.getD g 0) (b.getD g 0) := by
  have hzl : g < (List.zipWith f a b).length := by
    simp [List.length_zipWith]; omega
  rw [List.getD_eq_getElem?_getD, List.getElem?_eq_getElem hzl,
    List.getD_eq_getElem?_getD, List.getElem?_eq_getElem ha,
    List.getD_eq_getElem?_getD, List.getElem?_eq_getElem hb]
  simp [List.getElem_zipWith]

/-- Scatter-set (`out.at[ids].set(v)`) leaves `v` exactly at the indices that
occur in `ids` (in range), everything else untouched. -/
theorem scatterSet_getD (ids : List ℕ) (v : ℚ) (out : List ℚ) (g : ℕ)
    (hg : g < out.length) :
    (scatterPairs (fun _ newv => newv)
        ((List.replicate ids.length v).zip ids) out).getD g 0
      = if g ∈ ids then v else out.getD g 0 := by
  induction ids generalizing out with
  | nil => simp [scatterPairs]
  | cons i is ih =>
      have hzip : (List.replicate (i :: is).length v).zip (i :: is)
          = (v, i) :: (List.replicate is.length v).zip is := by
        simp [List.replicate_succ]
      cases hget : out.get? i with
      | none =>
          have hstep : scatterPairs (fun _ newv => newv)
                ((List.replicate (i :: is).length v).zip (i :: is)) out
              = scatterPairs (fun _ newv => newv)
                ((List.replicate is.length v).zip is) out := by
            rw [hzip]
            simp only [scatterPairs, hget]
          have hi : out.length ≤ i := by
            by_contra hlt
            push_neg at hlt
            rw [List.get?_eq_get hlt] at hget
            cases hget
          have hgi : g ≠ i := by omega
          rw [hstep, ih out hg]
          simp [List.mem_cons, hgi]
      | some x =>
          have hstep : scatterPairs (fun _ newv => newv)
                ((List.replicate (i :: is).length v).zip (i :: is)) out
              = scatterPairs (fun _ newv => newv)
                ((List.replicate is.length v).zip is) (out.set i v) := by
            rw [hzip]
            simp only [scatterPairs, hget]
          rw [hstep, ih (out.set i v) (by simpa using hg)]
          by_cases hgi : g = i
          · subst hgi
            have hset : (out.set g v)[g]?.getD 0 = v := by
              rw [List.getElem?_set_self hg]
              rfl
            simp [List.getD_eq_getElem?_getD, hset, List.mem_cons]
          · have hset : (out.set i v)[g]? = out[g]? :=
              List.getElem?_set_ne (by omega)
            simp [List.getD_eq_getElem?_getD, hset, List.mem_cons, hgi]

/-! ## Claim theorems about the built-in operators -/

/-- The five directed-reduce operators, addressed by name. -/
inductive P2POp where
  | sum | prod | min | max | mean
deriving DecidableEq, Repr

def pre2post_call : P2POp → PreValues → ℕ → List ℕ → Option (List ℕ) →
    Except PyError (List ℚ)
  | .sum => pre2post_sum
  | .prod => pre2post_prod
  | .min => pre2post_min
  | .max => pre2post_max
  | .mean => pre2post_mean

/-- The procedure the spec describes for heterogeneous inputs: gather
`pre_values[pre_ids]`, then scatter by `post_ids` with the operation. -/
def gather_then_scatter (op : P2POp) (vs : List ℚ) (pids : List ℕ)
    (post_num : ℕ) (post_ids : List ℕ) : List ℚ :=
  match op with
  | .sum => scatterPairs (· + ·) ((gatherIdx vs pids).zip post_ids) (List.replicate post_num 0)
  | .prod => scatterPairs (· * ·) ((gatherIdx vs pids).zip post_ids) (List.replicate post_num 0)
  | .min => scatterPairs min ((gatherIdx vs pids).zip post_ids) (List.replicate post_num 0)
  | .max => scatterPairs max ((gatherIdx vs pids).zip post_ids) (List.replicate post_num 0)
  | .mean => syn2post_mean (gatherIdx vs pids) post_ids post_num

/-- C7: for every op in sum/prod/min/max/mean, array-valued `pre_values` with
`pre_ids = None` fails with `MathError` stating that `pre_ids` is required;
scalar `pre_values` never raises that error regardless of `pre_ids`, and
array-valued `pre_values` with `pre_ids` supplied succeeds, computing
gather-then-scatter with the operation. -/
theorem pre2post_pre_ids_spec :
    (∀ (op : P2POp) (vs : List ℚ) (post_num : ℕ) (post_ids : List ℕ),
      pre2post_call op (.array vs) post_num post_ids none
        = .error (.mathError
            "pre2post synaptic computation needs pre_ids when providing heterogeneous pre_values")) ∧
    (∀ (op : P2POp) (v : ℚ) (post_num : ℕ) (post_ids : List ℕ) (pre_ids : Option (List ℕ)),
      ∃ r, pre2post_call op (.scalar v) post_num post_ids pre_ids = .ok r) ∧
    (∀ (op : P2POp) (vs : List ℚ) (post_num : ℕ) (post_ids : List ℕ) (pids : List ℕ),
      pre2post_call op (.array vs) post_num post_ids (some pids)
        = .ok (gather_then_scatter op vs pids post_num post_ids)) := by
  refine ⟨?_, ?_, ?_⟩
  · intro op vs post_num post_ids
    cases op <;> rfl
  · intro op v post_num post_ids pre_ids
    cases op <;> exact ⟨_, rfl⟩
  · intro op vs post_num post_ids pids
    cases op <;> rfl

/-- C8: `syn2post_mean` returns, for each group, the sum of the group's
values divided by the number of synapses mapped to that group, with empty
groups (the `0/0` case) mapped to `0`. -/
theorem syn2post_mean_spec (vs : List ℚ) (ids : List ℕ) (n : ℕ)
    (hlen : vs.length = ids.length) (hids : ∀ i ∈ ids, i < n) :
    (syn2post_mean vs ids n).length = n ∧
    ∀ g, g < n →
      (syn2post_mean vs ids n).getD g 0 =
        (if ((vs.zip ids).filter (fun p => p.2 = g)).length = 0 then 0
         else (((vs.zip ids).filter (fun p => p.2 = g)).map Prod.fst).sum
              / (((vs.zip ids).filter (fun p => p.2 = g)).length : ℚ)) := by
  constructor
  · simp [syn2post_mean, List.length_zipWith, segReduce_length]
  · intro g hg
    unfold syn2post_mean
    rw [zipWith_getD _ _ _ _ (by simpa [segReduce_length] using hg)
      (by simpa [segReduce_length] using hg)]
    rw [segSum_ones_getD _ _ _ _ hg hlen, segSum_getD _ _ _ _ hg]
    by_cases hc : ((vs.zip ids).filter (fun p => p.2 = g)).length = 0
    · simp [hc]
    · have : (((vs.zip ids).filter (fun p => p.2 = g)).length : ℚ) ≠ 0 := by
        exact_mod_cast hc
      simp [hc, this]

/-- Witness for C8 at the spec's example: values `[1,2,3]`, groups `[0,0,1]`,
two groups, giving `[3/2, 3]`. -/
theorem syn2post_mean_witness :
    (([1, 2, 3] : List ℚ).length = ([0, 0, 1] : List ℕ).length ∧
      ∀ i ∈ ([0, 0, 1] : List ℕ), i < 2) ∧
    (syn2post_mean [1, 2, 3] [0, 0, 1] 2).getD 0 0 = 3 / 2 ∧
    (syn2post_mean [1, 2, 3] [0, 0, 1] 2).getD 1 0 = 3 ∧
    syn2post_mean [1, 2, 3] [0, 0, 1] 2 = [3 / 2, 3] := by
  have h := syn2post_mean_spec [1, 2, 3] [0, 0, 1] 2 (by decide) (by decide)
  refine ⟨⟨by decide, by decide⟩, ?_, ?_,
    by norm_num [syn2post_mean, segReduce, scatterPairs, List.replicate, List.set]⟩
  · rw [h.2 0 (by decide)]
    norm_num [List.filter]
  · rw [h.2 1 (by decide)]
    norm_num [List.filter]

/-- C10: `pre2post_mean` with a scalar value writes exactly the scalar (set
once, never accumulated) at every post index that occurs in `post_ids` and
leaves every other index at `0`. -/
theorem pre2post_mean_scalar_spec (v : ℚ) (post_num : ℕ) (post_ids : List ℕ)
    (pre_ids : Option (List ℕ)) (hids : ∀ i ∈ post_ids, i < post_num) :
    ∃ out, pre2post_mean (.scalar v) post_num post_ids pre_ids = .ok out ∧
      out.length = post_num ∧
      ∀ g, g < post_num → out.getD g 0 = if g ∈ post_ids then v else 0 := by
  refine ⟨_, rfl, by simp [scatterPairs_length], ?_⟩
  intro g hg
  rw [scatterSet_getD _ _ _ _ (by simpa using hg)]
  by_cases hm : g ∈ post_ids
  · simp [List.mem_dedup, hm]
  · simp [List.mem_dedup, hm, List.getD_eq_getElem?_getD, List.getElem?_replicate, hg]

/-- Witness for C10: scalar `5`, three post neurons, `post_ids = [1,1,2]`
gives `[0,5,5]`. -/
theorem pre2post_mean_scalar_witness :
    (∀ i ∈ ([1, 1, 2] : List ℕ), i < 3) ∧
    (∃ out, pre2post_mean (.scalar 5) 3 [1, 1, 2] none = .ok out ∧
      out.length = 3 ∧
      ∀ g, g < 3 → out.getD g 0 = if g ∈ ([1, 1, 2] : List ℕ) then 5 else 0) ∧
    pre2post_mean (.scalar 5) 3 [1, 1, 2] none = .ok [0, 5, 5] := by
  exact ⟨by decide, pre2post_mean_scalar_spec 5 3 [1, 1, 2] none (by decide),
    by norm_num [pre2post_mean, scatterPairs, List.dedup, List.replicate, List.set]⟩

/-! ## The operator registry (`extensions/brainpylib/operator/cpu_op.py`)

Concrete buffers are `NArr` (shape, dtype, flat data); descriptors are
`ShapedArray` (shape, dtype), mirroring `jax.abstract_arrays.ShapedArray`.
A Python kernel `func(outputs, inputs)` mutates its preallocated output
buffers in place; the model's kernel returns the post-mutation buffers. -/

inductive DType where
  | f32 | f64 | i32 | boolT
deriving DecidableEq, Repr

structure ShapedArray where
  shape : List ℕ
  dtype : DType
deriving DecidableEq, Repr

structure NArr where
  shape : List ℕ
  dtype : DType
  data : List ℚ
deriving DecidableEq, Repr

def NArr.descr (a : NArr) : ShapedArray := ⟨a.shape, a.dtype⟩

def shapeSize (shape : List ℕ) : ℕ := shape.foldr (· * ·) 1

/-- Embeds `np.zeros(shape, dtype)`. -/
def np_zeros (d : ShapedArray) : NArr :=
  ⟨d.shape, d.dtype, List.replicate (shapeSize d.shape) 0⟩

/-- A Python callable as `register_cpu_op` sees it: `isinstance(func,
LambdaType)`, `func.__name__`, and the kernel body. -/
structure PyFunc where
  isLambda : Bool
  name : String
  run : List NArr → List NArr → List NArr

/-- What a user-supplied `out_shapes` callable may return: a single
`ShapedArray` (not a `collections.abc.Collection`, so the rule wraps it in a
list) or a tuple/list of them (returned as is). -/
inductive AbsEvalResult where
  | one : ShapedArray → AbsEvalResult
  | many : List ShapedArray → AbsEvalResult

/-- An element of a user-supplied `out_shapes` tuple/list: a `ShapedArray`
or a value of any other Python type (carrying that type's name). -/
inductive OutSpecElem where
  | sa : ShapedArray → OutSpecElem
  | other : String → OutSpecElem

/-- The `out_shapes` argument of `register_cpu_op`: a callable, a single
`ShapedArray`, a tuple/list, or a value of any other Python type. -/
inductive OutShapes where
  | fn : (List ShapedArray → AbsEvalResult) → OutShapes
  | single : ShapedArray → OutShapes
  | seq : List OutSpecElem → OutShapes
  | unknown : String → OutShapes

/-- The element loop of `abs_eval_rule`'s tuple/list branch: raises
`ValueError` at the first element that is not a `ShapedArray`. -/
def checkSeqElems : List OutSpecElem → Except PyError (List ShapedArray)
  | [] => .ok []
  | .sa d :: rest => (checkSeqElems rest).map (fun ds => d :: ds)
  | .other t :: _ => .error (.valueError
      ("Elements in out_shapes must be instances of jax.abstract_arrays.ShapedArray, but we got " ++ t))

/-- Embeds `abs_eval_rule` as defined inside `register_cpu_op`: normalizes every
legal form of `out_shapes` to a descriptor list and raises `ValueError`
otherwise.  Note this runs only when the operator is evaluated or lowered,
never at registration time. -/
def abs_eval_rule (out_shapes : OutShapes) (input_shapes : List ShapedArray) :
    Except PyError (List ShapedArray) :=
  match out_shapes with
  | .fn f =>
      match f input_shapes with
      | .one d => .ok [d]
      | .many ds => .ok ds
  | .single d => .ok [d]
  | .seq elems => checkSeqElems elems
  | .unknown t => .error (.valueError
      ("Unknown type " ++ t ++ ", only supports function, ShapedArray or list/tuple of ShapedArray."))

/-- Process-wide XLA custom-call-target state: the counter behind numba's
fresh mangled `native_name`s and the list of names passed to
`xla_client.register_custom_call_target(..., platform='cpu')`. -/
structure TargetRegistry where
  numba_next : ℕ
  cpu_targets : List String
deriving DecidableEq, Repr

/-- Embeds `eval_rule` (the primitive's `def_impl`): abstract-evaluate the concrete
inputs, preallocate zero buffers, run the kernel on `(outputs, inputs)`, and
return the output tuple.  It threads the target registry only to make
explicit that the eager path never touches it. -/
def eval_rule (func : PyFunc) (out_shapes : OutShapes) (inputs : List NArr)
    (st : TargetRegistry) : Except PyError (List NArr) × TargetRegistry :=
  (match abs_eval_rule out_shapes (inputs.map NArr.descr) with
    | .error e => .error e
    | .ok output_shapes =>
        let outputs := output_shapes.map np_zeros
        .ok (func.run outputs inputs),
   st)

/-- Result of calling a registered operator: `result[0] if len(result) == 1
else result`. -/
inductive BindResult where
  | single : NArr → BindResult
  | multiple : List NArr → BindResult
deriving DecidableEq, Repr

def unwrapResult (outs : List NArr) : BindResult :=
  match outs with
  | [o] => .single o
  | _ => .multiple outs

/-- Embeds `bind_primitive` on the eager path: `prim.bind` dispatches to the
`def_impl` rule (`eval_rule`) and unwraps a singleton result. -/
def bind_primitive (func : PyFunc) (out_shapes : OutShapes)
    (inputs : List NArr) (st : TargetRegistry) :
    Except PyError BindResult × TargetRegistry :=
  match eval_rule func out_shapes inputs st with
  | (.ok outs, st') => (.ok (unwrapResult outs), st')
  | (.error e, st') => (.error e, st')

/-- The module-level counter `_lambda_no = 0` of `cpu_op.py`.  The module
declares it for disambiguating anonymous kernels but no statement ever
increments it, so it is the constant `0`. -/
def _lambda_no : ℕ := 0

/-- A registered operator: the `core.Primitive` object's identity, its name,
and the invocable wrapper returned by `register_cpu_op`. -/
structure Operator where
  prim_id : ℕ
  name : String
  call : List NArr → TargetRegistry → Except PyError BindResult × TargetRegistry

/-- The process-wide registry state mutated by `register_cpu_op`:
`core.Primitive` object identities, and
`xla.backend_specific_translations['cpu']`, a dict keyed by primitive object
(represented by its identity) holding the primitive's name. -/
structure XlaRegistry where
  next_prim_id : ℕ
  cpu_translations : List (ℕ × String)
deriving DecidableEq, Repr

/-- Embeds `register_cpu_op(func, out_shapes)`: names the primitive (anonymous
lambdas get `'_lambda_func' + str(_lambda_no)`), installs the translation
rule for platform `'cpu'`, and returns `bind_primitive`.  It performs no
validation of `out_shapes` and compiles nothing. -/
def register_cpu_op (func : PyFunc) (out_shapes : OutShapes) (reg : XlaRegistry) :
    Operator × XlaRegistry :=
  let prim_name :=
    if func.isLambda && func.name == "<lambda>"
    then "_lambda_func" ++ toString _lambda_no
    else func.name
  let pid := reg.next_prim_id
  (⟨pid, prim_name, bind_primitive func out_shapes⟩,
   ⟨pid + 1, reg.cpu_translations ++ [(pid, prim_name)]⟩)

/-- Embeds `_compile_cpu_signature`: generates the trampoline source for the given
signature, compiles it with `numba.cfunc` (which mangles a fresh
`native_name` per compilation, modelled by the counter), and registers the
address as a cpu custom call target under that name.  The signature
arguments are captured by the generated wrapper but do not influence the
registry bookkeeping. -/
def _compile_cpu_signature (func : PyFunc) (input_dtypes : List DType)
    (input_shapes : List (List ℕ)) (output_dtypes : List DType)
    (output_shapes : List (List ℕ)) (st : TargetRegistry) :
    String × TargetRegistry :=
  let target_name := "xla_cpu_custom_call_target_" ++ toString st.numba_next
  (target_name,
   ⟨st.numba_next + 1, st.cpu_targets ++ [target_name]⟩)

/-- The call node `_func_translation` hands back to the lowering backend. -/
structure XlaCallNode where
  target_name : String
  operand_shapes : List ShapedArray
  output_shapes : List ShapedArray
deriving DecidableEq, Repr

/-- Embeds `_func_translation`: query operand descriptors, run the abstract
evaluator, compile-and-register the trampoline for this signature, and emit
the custom call node. -/
def _func_translation (func : PyFunc) (out_shapes : OutShapes)
    (input_shapes : List ShapedArray) (st : TargetRegistry) :
    Except PyError XlaCallNode × TargetRegistry :=
  match abs_eval_rule out_shapes input_shapes with
  | .error e => (.error e, st)
  | .ok output_abstract_arrays =>
      let r := _compile_cpu_signature func
        (input_shapes.map ShapedArray.dtype) (input_shapes.map ShapedArray.shape)
        (output_abstract_arrays.map ShapedArray.dtype)
        (output_abstract_arrays.map ShapedArray.shape) st
      (.ok ⟨r.1, input_shapes, output_abstract_arrays⟩, r.2)

/-! ## Fixtures: concrete kernels used by several claims -/

/-- An anonymous kernel, `lambda outs, ins: outs[0][:] = ins[0] + 1`. -/
def lambdaKernelAddOne : PyFunc :=
  ⟨true, "<lambda>", fun outs ins =>
    match ins with
    | [x] => [⟨x.shape, x.dtype, x.data.map (fun q => q + 1)⟩]
    | _ => outs⟩

/-- A second, syntactically distinct anonymous kernel,
`lambda outs, ins: outs[0][:] = ins[0] * 2`. -/
def lambdaKernelTimesTwo : PyFunc :=
  ⟨true, "<lambda>", fun outs ins =>
    match ins with
    | [x] => [⟨x.shape, x.dtype, x.data.map (fun q => q * 2)⟩]
    | _ => outs⟩

/-- A named (non-lambda) kernel that leaves its zero outputs in place. -/
def namedKernelCopy : PyFunc := ⟨false, "my_custom_op", fun outs _ => outs⟩

/-- The `abs_eval` of `cpu_op.py`'s own demo: output descriptors equal the
input descriptors. -/
def identityOutSpec : OutShapes := .fn (fun ds => .many ds)

def sampleInput : NArr := ⟨[2], .f32, [1, 2]⟩

/-! ## Claim theorems about the registry -/

/-- C1 (evaluation of the code at the failing input): registering two
syntactically distinct anonymous lambda kernels yields two operators whose
registry ids are BOTH `"_lambda_func0"`, because `_lambda_no` is declared
but never incremented — the ids collide, refuting id uniqueness.  (The two
primitive objects are still distinct and the eager path still dispatches
each to its own kernel, as the last two conjuncts show.) -/
theorem register_two_lambdas_id_collision :
    (register_cpu_op lambdaKernelAddOne identityOutSpec ⟨0, []⟩).1.name
        = "_lambda_func0" ∧
    ((register_cpu_op lambdaKernelTimesTwo identityOutSpec
        (register_cpu_op lambdaKernelAddOne identityOutSpec ⟨0, []⟩).2).1.name
        = "_lambda_func0") ∧
    ((register_cpu_op lambdaKernelTimesTwo identityOutSpec
        (register_cpu_op lambdaKernelAddOne identityOutSpec ⟨0, []⟩).2).2.cpu_translations
        = [(0, "_lambda_func0"), (1, "_lambda_func0")]) ∧
    (((register_cpu_op lambdaKernelAddOne identityOutSpec ⟨0, []⟩).1.call
        [sampleInput] ⟨0, []⟩).1 = .ok (.single ⟨[2], .f32, [2, 3]⟩)) ∧
    (((register_cpu_op lambdaKernelTimesTwo identityOutSpec
        (register_cpu_op lambdaKernelAddOne identityOutSpec ⟨0, []⟩).2).1.call
        [sampleInput] ⟨0, []⟩).1 = .ok (.single ⟨[2], .f32, [2, 4]⟩)) := by
  refine ⟨rfl, rfl, rfl, ?_, ?_⟩ <;>
    norm_num [register_cpu_op, bind_primitive, eval_rule, abs_eval_rule,
      unwrapResult, np_zeros, shapeSize, lambdaKernelAddOne, lambdaKernelTimesTwo,
      identityOutSpec, sampleInput, NArr.descr, List.replicate]

/-- C3 counterexample: lowering the identical operator with the identical
input signature twice compiles twice and registers two distinct custom call
targets — the second lowering is not side-effect-idempotent and does not
reuse a cached record. -/
theorem translation_not_idempotent_counterexample :
    ((_func_translation namedKernelCopy identityOutSpec [⟨[2], DType.f32⟩]
        ⟨0, []⟩).2.cpu_targets = ["xla_cpu_custom_call_target_0"]) ∧
    ((_func_translation namedKernelCopy identityOutSpec [⟨[2], DType.f32⟩]
        (_func_translation namedKernelCopy identityOutSpec [⟨[2], DType.f32⟩]
          ⟨0, []⟩).2).2.cpu_targets
        = ["xla_cpu_custom_call_target_0", "xla_cpu_custom_call_target_1"]) ∧
    ((_func_translation namedKernelCopy identityOutSpec [⟨[2], DType.f32⟩]
        (_func_translation namedKernelCopy identityOutSpec [⟨[2], DType.f32⟩]
          ⟨0, []⟩).2).2
      ≠ (_func_translation namedKernelCopy identityOutSpec [⟨[2], DType.f32⟩]
          ⟨0, []⟩).2) := by
  refine ⟨rfl, rfl, by decide⟩

/-- C3 (amended): every successful invocation of the translation rule
performs exactly one fresh compilation and appends exactly one new target
registration, named by the next numba counter value — there is no
per-signature cache, so repeated lowering duplicates the side effects
(under fresh naming, hence without a collision). -/
theorem translation_always_compiles (func : PyFunc) (out_shapes : OutShapes)
    (input_shapes : List ShapedArray) (st st' : TargetRegistry) (node : XlaCallNode)
    (h : _func_translation func out_shapes input_shapes st = (.ok node, st')) :
    st'.cpu_targets = st.cpu_targets ++ [node.target_name] ∧
    st'.numba_next = st.numba_next + 1 ∧
    node.target_name = "xla_cpu_custom_call_target_" ++ toString st.numba_next := by
  unfold _func_translation at h
  cases habs : abs_eval_rule out_shapes input_shapes with
  | error e => rw [habs] at h; cases h
  | ok outs =>
      rw [habs] at h
      simp only [_compile_cpu_signature] at h
      injection h with h1 h2
      injection h1 with h1
      subst h1
      subst h2
      exact ⟨rfl, rfl, rfl⟩

/-- Witness for the amended C3 theorem at a concrete signature. -/
theorem translation_always_compiles_witness :
    (_func_translation namedKernelCopy identityOutSpec [⟨[2], DType.f32⟩] ⟨0, []⟩
        = (.ok ⟨"xla_cpu_custom_call_target_0", [⟨[2], DType.f32⟩], [⟨[2], DType.f32⟩]⟩,
            ⟨1, ["xla_cpu_custom_call_target_0"]⟩)) ∧
    (["xla_cpu_custom_call_target_0"]
        = ([] : List String) ++ ["xla_cpu_custom_call_target_0"] ∧
      (1 : ℕ) = 0 + 1 ∧
      "xla_cpu_custom_call_target_0" = "xla_cpu_custom_call_target_" ++ toString (0 : ℕ)) :=
  ⟨rfl, translation_always_compiles namedKernelCopy identityOutSpec
    [⟨[2], DType.f32⟩] ⟨0, []⟩ ⟨1, ["xla_cpu_custom_call_target_0"]⟩
    ⟨"xla_cpu_custom_call_target_0", [⟨[2], DType.f32⟩], [⟨[2], DType.f32⟩]⟩ rfl⟩

/-- C4 counterexample: giving `register_cpu_op` an `out_shapes` that is
neither callable, nor a `ShapedArray`, nor a sequence (here: a Python `int`)
does NOT make the registration call fail — the operator is registered and
returned, and only invoking it later raises (a `ValueError`, not a
`RegistrationError`). -/
theorem register_invalid_spec_counterexample :
    ((register_cpu_op namedKernelCopy (.unknown "int") ⟨0, []⟩).2.cpu_translations
        = [(0, "my_custom_op")]) ∧
    (((register_cpu_op namedKernelCopy (.unknown "int") ⟨0, []⟩).1.call
        [sampleInput] ⟨0, []⟩).1
      = .error (.valueError
          "Unknown type int, only supports function, ShapedArray or list/tuple of ShapedArray.")) := by
  exact ⟨rfl, rfl⟩

/-- C4 (amended): `register_cpu_op` defers all validation of `out_shapes`:
for an invalid specification the registration itself always succeeds
(inserting the primitive's translation entry), and every later eager
invocation of the returned operator fails with the `ValueError`. -/
theorem register_defers_validation (func : PyFunc) (t : String) (reg : XlaRegistry)
    (inputs : List NArr) (st : TargetRegistry) :
    ((register_cpu_op func (.unknown t) reg).2.cpu_translations.length
        = reg.cpu_translations.length + 1) ∧
    (((register_cpu_op func (.unknown t) reg).1.call inputs st).1
      = .error (.valueError
          ("Unknown type " ++ t ++ ", only supports function, ShapedArray or list/tuple of ShapedArray."))) := by
  constructor
  · simp [register_cpu_op]
  · rfl

/-- The eager-execution procedure exactly as §4.3 of the spec words it:
abstract-evaluate the concrete inputs' descriptors, allocate
zero-initialized buffers matching the output descriptors, invoke the kernel
as `kernel(outputs, inputs)`, and return the outputs unwrapped to a single
buffer when there is exactly one output. -/
def eager_spec_procedure (func : PyFunc) (out_shapes : OutShapes)
    (inputs : List NArr) : Except PyError BindResult :=
  match abs_eval_rule out_shapes (inputs.map NArr.descr) with
  | .error e => .error e
  | .ok descrs =>
      let buffers := descrs.map np_zeros
      let outs := func.run buffers inputs
      .ok (match outs with
        | [o] => .single o
        | _ => .multiple outs)

/-- C5: the operator returned by `register_cpu_op`, invoked eagerly, computes
exactly the spec's procedure, and leaves the custom-call-target registry
untouched (the eager path performs no target registration). -/
theorem eager_execution_matches_spec (func : PyFunc) (out_shapes : OutShapes)
    (reg : XlaRegistry) (inputs : List NArr) (st : TargetRegistry) :
    ((register_cpu_op func out_shapes reg).1.call inputs st).1
        = eager_spec_procedure func out_shapes inputs ∧
    ((register_cpu_op func out_shapes reg).1.call inputs st).2 = st := by
  constructor
  · show (bind_primitive func out_shapes inputs st).1 = _
    unfold bind_primitive eval_rule eager_spec_procedure unwrapResult
    cases abs_eval_rule out_shapes (inputs.map NArr.descr) <;> rfl
  · show (bind_primitive func out_shapes inputs st).2 = st
    unfold bind_primitive eval_rule
    cases abs_eval_rule out_shapes (inputs.map NArr.descr) <;> rfl

/-! ## Extension loader (`brainpy/_src/dependency_check.py`) -/

/-- Python's `<` on strings: lexicographic comparison of code points.  (The
built-in Lean `String` order is the same relation, but its decision
procedure does not reduce in the kernel, so the comparison is spelled out
structurally.) -/
def pyStrLtAux : List Char → List Char → Bool
  | [], [] => false
  | [], _ :: _ => true
  | _ :: _, [] => false
  | a :: as, b :: bs =>
      if a.toNat < b.toNat then true
      else if b.toNat < a.toNat then false
      else pyStrLtAux as bs

def pyStrLt (a b : String) : Bool := pyStrLtAux a.data b.data

def _minimal_brainpylib_version : String := "0.1.10"

def brainpylibInstallMsg : String :=
  "Please install brainpylib. See https://brainpy.readthedocs.io for installation instructions."

def brainpylibGpuInstallMsg : String :=
  "Please install GPU version of brainpylib. See https://brainpy.readthedocs.io for installation instructions."

def brainpylibVersionMsg : String :=
  "This version of brainpy needs brainpylib >= 0.1.10."

/-- The installed `brainpylib` distribution as the loader sees it: the
reported `__version__` string and the `registrations()` dict of each ops
submodule (target name ↦ opaque capsule handle). -/
structure BrainpylibDist where
  version : String
  cpu_registrations : List (String × ℕ)
  gpu_registrations : List (String × ℕ)
deriving DecidableEq, Repr

/-- The Python environment: `brainpylib` either importable or absent. -/
structure PyEnv where
  brainpylib : Option BrainpylibDist
deriving DecidableEq, Repr

/-- The module-level globals of `dependency_check.py` together with the XLA
custom-call-target tables the loaders register into. -/
structure DepState where
  brainpylib_cpu_ops : Option (List (String × ℕ))
  brainpylib_gpu_ops : Option (List (String × ℕ))
  xla_cpu_targets : List (String × ℕ)
  xla_gpu_targets : List (String × ℕ)
deriving DecidableEq, Repr

/-- Embeds `import_brainpylib_cpu_ops`.  The statement `from brainpylib import
cpu_ops as brainpylib_cpu_ops` binds the module-level global BEFORE the
registration loop and the version check run, and the version failure is a
`SystemError`, which the surrounding `except ImportError` clause does not
catch — so on a version failure the global stays bound and the symbols stay
registered, and only the absent-library failure leaves the state
untouched. -/
def import_brainpylib_cpu_ops (env : PyEnv) (st : DepState) :
    Except PyError (List (String × ℕ)) × DepState :=
  match st.brainpylib_cpu_ops with
  | some m => (.ok m, st)
  | none =>
      match env.brainpylib with
      | none => (.error (.importError brainpylibInstallMsg), st)
      | some dist =>
          let m := dist.cpu_registrations
          let st1 : DepState :=
            { st with brainpylib_cpu_ops := some m,
                      xla_cpu_targets := st.xla_cpu_targets ++ m }
          if pyStrLt dist.version _minimal_brainpylib_version then
            (.error (.systemError brainpylibVersionMsg), st1)
          else
            (.ok m, st1)

/-- Embeds `import_brainpylib_gpu_ops`, the gpu twin of the cpu loader. -/
def import_brainpylib_gpu_ops (env : PyEnv) (st : DepState) :
    Except PyError (List (String × ℕ)) × DepState :=
  match st.brainpylib_gpu_ops with
  | some m => (.ok m, st)
  | none =>
      match env.brainpylib with
      | none => (.error (.importError brainpylibGpuInstallMsg), st)
      | some dist =>
          let m := dist.gpu_registrations
          let st1 : DepState :=
            { st with brainpylib_gpu_ops := some m,
                      xla_gpu_targets := st.xla_gpu_targets ++ m }
          if pyStrLt dist.version _minimal_brainpylib_version then
            (.error (.systemError brainpylibVersionMsg), st1)
          else
            (.ok m, st1)

/-- An environment whose installed brainpylib reports version 0.1.0, below
the 0.1.10 minimum. -/
def lowVersionEnv : PyEnv := ⟨some ⟨"0.1.0", [("event_sum_cpu", 7)], []⟩⟩

def emptyDepState : DepState := ⟨none, none, [], []⟩

/-- C2 counterexample: with the library present but below the minimum
version, the first loader call raises — yet it caches the module handle (and
registers its symbols), so the second call with nothing changed returns the
cached handle successfully instead of re-attempting and failing the same
way.  This refutes "when a call raises, no handle is cached and the next
call fails the same way". -/
theorem loader_version_failure_cached_counterexample :
    ((import_brainpylib_cpu_ops lowVersionEnv emptyDepState).1
        = .error (.systemError brainpylibVersionMsg)) ∧
    ((import_brainpylib_cpu_ops lowVersionEnv emptyDepState).2.brainpylib_cpu_ops
        = some [("event_sum_cpu", 7)]) ∧
    ((import_brainpylib_cpu_ops lowVersionEnv emptyDepState).2.xla_cpu_targets
        = [("event_sum_cpu", 7)]) ∧
    (import_brainpylib_cpu_ops lowVersionEnv
        (import_brainpylib_cpu_ops lowVersionEnv emptyDepState).2
      = (.ok [("event_sum_cpu", 7)],
         (import_brainpylib_cpu_ops lowVersionEnv emptyDepState).2)) := by
  exact ⟨rfl, rfl, rfl, rfl⟩

/-- C2 (amended): when the library is absent, the loader raises
`ImportError`, caches nothing, and the next call re-attempts and fails
identically; but when the library is present with a version below the
minimum, the loader raises `SystemError` only after binding the module
global and registering its symbols, so the failed handle IS cached and the
next call returns it without error.  Stated for both the cpu and the gpu
loader. -/
theorem loader_failure_caching_spec (env : PyEnv) (st : DepState)
    (h0c : st.brainpylib_cpu_ops = none) (h0g : st.brainpylib_gpu_ops = none) :
    (env.brainpylib = none →
      import_brainpylib_cpu_ops env st = (.error (.importError brainpylibInstallMsg), st) ∧
      import_brainpylib_gpu_ops env st = (.error (.importError brainpylibGpuInstallMsg), st)) ∧
    (∀ dist : BrainpylibDist, env.brainpylib = some dist →
      pyStrLt dist.version _minimal_brainpylib_version = true →
      ((import_brainpylib_cpu_ops env st).1 = .error (.systemError brainpylibVersionMsg) ∧
       (import_brainpylib_cpu_ops env st).2.brainpylib_cpu_ops = some dist.cpu_registrations ∧
       import_brainpylib_cpu_ops env (import_brainpylib_cpu_ops env st).2
         = (.ok dist.cpu_registrations, (import_brainpylib_cpu_ops env st).2)) ∧
      ((import_brainpylib_gpu_ops env st).1 = .error (.systemError brainpylibVersionMsg) ∧
       (import_brainpylib_gpu_ops env st).2.brainpylib_gpu_ops = some dist.gpu_registrations ∧
       import_brainpylib_gpu_ops env (import_brainpylib_gpu_ops env st).2
         = (.ok dist.gpu_registrations, (import_brainpylib_gpu_ops env st).2))) := by
  constructor
  · intro habs
    constructor
    · unfold import_brainpylib_cpu_ops
      rw [h0c, habs]
    · unfold import_brainpylib_gpu_ops
      rw [h0g, habs]
  · intro dist hsome hver
    constructor
    · have hfirst : import_brainpylib_cpu_ops env st
          = (.error (.systemError brainpylibVersionMsg),
             { st with brainpylib_cpu_ops := some dist.cpu_registrations,
                       xla_cpu_targets := st.xla_cpu_targets ++ dist.cpu_registrations }) := by
        unfold import_brainpylib_cpu_ops
        rw [h0c, hsome]
        simp [hver]
      rw [hfirst]
      refine ⟨rfl, rfl, ?_⟩
      unfold import_brainpylib_cpu_ops
      rfl
    · have hfirst : import_brainpylib_gpu_ops env st
          = (.error (.systemError brainpylibVersionMsg),
             { st with brainpylib_gpu_ops := some dist.gpu_registrations,
                       xla_gpu_targets := st.xla_gpu_targets ++ dist.gpu_registrations }) := by
        unfold import_brainpylib_gpu_ops
        rw [h0g, hsome]
        simp [hver]
      rw [hfirst]
      refine ⟨rfl, rfl, ?_⟩
      unfold import_brainpylib_gpu_ops
      rfl

/-- Witness for the amended C2 theorem at a concrete low-version
environment. -/
theorem loader_failure_caching_witness :
    (emptyDepState.brainpylib_cpu_ops = none ∧
      emptyDepState.brainpylib_gpu_ops = none ∧
      lowVersionEnv.brainpylib = some ⟨"0.1.0", [("event_sum_cpu", 7)], []⟩ ∧
      pyStrLt "0.1.0" _minimal_brainpylib_version = true) ∧
    (import_brainpylib_cpu_ops lowVersionEnv emptyDepState).1
        = .error (.systemError brainpylibVersionMsg) := by
  refine ⟨⟨rfl, rfl, rfl, by decide⟩, ?_⟩
  exact (((loader_failure_caching_spec lowVersionEnv emptyDepState rfl rfl).2
    ⟨"0.1.0", [("event_sum_cpu", 7)], []⟩ rfl (by decide)).1).1

/-! ## Event-driven operators (`brainpy/math/operators.py`) -/

def _BRAINPYLIB_MINIMAL_VERSION : String := "0.0.3"

/-- The optional `brainpylib` module as `operators.py` imports it (`None`
when the import fails).  Its event kernels (`brainpylib.event_sum`,
`brainpylib.event_prod`) live in the compiled extension, outside this
repository's sources, so they are abstract function fields here. -/
structure BrainpylibModule where
  version : String
  event_sum : List Bool → List ℕ × List ℕ → ℕ → ℚ → List ℚ
  event_prod : List Bool → List ℕ × List ℕ → ℕ → ℚ → List ℚ

/-- Embeds `_check_brainpylib`: raises `PackageMissingError` when `brainpylib` is
absent or its reported version is below the minimum. -/
def _check_brainpylib (brainpylib : Option BrainpylibModule) (ops_name : String) :
    Except PyError Unit :=
  match brainpylib with
  | some b =>
      if pyStrLt b.version _BRAINPYLIB_MINIMAL_VERSION then
        .error (.packageMissing (ops_name ++ " operator need brainpylib>=0.0.3"))
      else
        .ok ()
  | none =>
      .error (.packageMissing
        ("brainpylib must be installed when the user wants to use " ++ ops_name ++ " operator"))

/-- Embeds `pre2post_event_sum`: check the extension first, then call the
extension's `event_sum` target. -/
def pre2post_event_sum (brainpylib : Option BrainpylibModule) (events : List Bool)
    (pre2post : List ℕ × List ℕ) (post_num : ℕ) (values : ℚ) :
    Except PyError (List ℚ) :=
  match _check_brainpylib brainpylib "pre2post_event_sum" with
  | .error e => .error e
  | .ok _ =>
      match brainpylib with
      | some b => .ok (b.event_sum events pre2post post_num values)
      | none => .error (.packageMissing "unreachable: check already failed")

/-- Embeds `pre2post_event_prod`: check the extension first, then call the
extension's `event_prod` target. -/
def pre2post_event_prod (brainpylib : Option BrainpylibModule) (events : List Bool)
    (pre2post : List ℕ × List ℕ) (post_num : ℕ) (values : ℚ) :
    Except PyError (List ℚ) :=
  match _check_brainpylib brainpylib "pre2post_event_prod" with
  | .error e => .error e
  | .ok _ =>
      match brainpylib with
      | some b => .ok (b.event_prod events pre2post post_num values)
      | none => .error (.packageMissing "unreachable: check already failed")

/-- C6: both event operators fail with `PackageMissingError` whenever the
extension is absent or below the minimum version — with an error value that
does not depend on any kernel, so no kernel has been invoked — and, when the
extension is available with a sufficient version, return exactly the
extension operator's result. -/
theorem event_ops_capability_gating :
    (∀ (events : List Bool) (conn : List ℕ × List ℕ) (post_num : ℕ) (values : ℚ),
      pre2post_event_sum none events conn post_num values
        = .error (.packageMissing
            "brainpylib must be installed when the user wants to use pre2post_event_sum operator") ∧
      pre2post_event_prod none events conn post_num values
        = .error (.packageMissing
            "brainpylib must be installed when the user wants to use pre2post_event_prod operator")) ∧
    (∀ b : BrainpylibModule, pyStrLt b.version _BRAINPYLIB_MINIMAL_VERSION = true →
      ∀ (events : List Bool) (conn : List ℕ × List ℕ) (post_num : ℕ) (values : ℚ),
      pre2post_event_sum (some b) events conn post_num values
        = .error (.packageMissing "pre2post_event_sum operator need brainpylib>=0.0.3") ∧
      pre2post_event_prod (some b) events conn post_num values
        = .error (.packageMissing "pre2post_event_prod operator need brainpylib>=0.0.3")) ∧
    (∀ b : BrainpylibModule, pyStrLt b.version _BRAINPYLIB_MINIMAL_VERSION = false →
      ∀ (events : List Bool) (conn : List ℕ × List ℕ) (post_num : ℕ) (values : ℚ),
      pre2post_event_sum (some b) events conn post_num values
        = .ok (b.event_sum events conn post_num values) ∧
      pre2post_event_prod (some b) events conn post_num values
        = .ok (b.event_prod events conn post_num values)) := by
  refine ⟨fun _ _ _ _ => ⟨rfl, rfl⟩, ?_, ?_⟩
  · intro b hv events conn post_num values
    constructor <;> simp [pre2post_event_sum, pre2post_event_prod, _check_brainpylib, hv]
  · intro b hv events conn post_num values
    constructor <;> simp [pre2post_event_sum, pre2post_event_prod, _check_brainpylib, hv]

/-- A concrete extension module below the minimum version, whose kernels
replicate the value. -/
def lowVersionModule : BrainpylibModule :=
  ⟨"0.0.1", fun _ _ n v => List.replicate n v, fun _ _ n v => List.replicate n v⟩

/-- A concrete extension module meeting the minimum version. -/
def goodVersionModule : BrainpylibModule :=
  ⟨"0.0.3", fun _ _ n v => List.replicate n v, fun _ _ n v => List.replicate n v⟩

/-- Witness for C6: the low-version module is rejected; the good module's
call reaches its kernel. -/
theorem event_ops_capability_gating_witness :
    (pyStrLt lowVersionModule.version _BRAINPYLIB_MINIMAL_VERSION = true ∧
      pyStrLt goodVersionModule.version _BRAINPYLIB_MINIMAL_VERSION = false) ∧
    pre2post_event_sum (some lowVersionModule) [true] ([0], [0, 1]) 2 1
        = .error (.packageMissing "pre2post_event_sum operator need brainpylib>=0.0.3") ∧
    pre2post_event_sum (some goodVersionModule) [true] ([0], [0, 1]) 2 1
        = .ok [1, 1] := by
  refine ⟨⟨by decide, by decide⟩, ?_, ?_⟩
  · exact ((event_ops_capability_gating.2.1 lowVersionModule (by decide)
      [true] ([0], [0, 1]) 2 1).1)
  · exact ((event_ops_capability_gating.2.2 goodVersionModule (by decide)
      [true] ([0], [0, 1]) 2 1).1)

/-! ## `syn2post_softmax` over idealized reals

The C9 claim is stated over idealized real arithmetic, so the softmax
pipeline is embedded over `ℝ`. -/

/-- Rewriting `zipWith` as a map over the zipped list. -/
theorem zipWith_eq_map_zip (f : α → β → γ) (as : List α) (bs : List β) :
    List.zipWith f as bs = (as.zip bs).map (fun p => f p.1 p.2) := by
  induction as generalizing bs with
  | nil => simp
  | cons a as ih =>
      cases bs with
      | nil => simp
      | cons b bs => simp [ih]

/-- Zipping a transformed zip against the same index list pairs each
transformed value with its original index. -/
theorem map_zip_zip_self (f : α × ℕ → β) (vs : List α) (ids : List ℕ)
    (h : vs.length = ids.length) :
    ((vs.zip ids).map f).zip ids = (vs.zip ids).map (fun p => (f p, p.2)) := by
  induction vs generalizing ids with
  | nil => simp
  | cons v vs ih =>
      cases ids with
      | nil => simp at h
      | cons i is =>
          simp only [List.zip_cons_cons, List.map_cons]
          rw [ih is (by simpa using h)]

/-- Embeds `jax.ops.segment_max`: per group, the maximum of that group's values.
jax fills untouched groups with `-inf`, which `ℝ` cannot represent; the
model defaults an empty group to `0`.  The softmax below only ever gathers
a position's own (hence non-empty) group, so the empty-group value is never
observed — and in fact the closed-form lemma holds for an arbitrary
per-group baseline. -/
noncomputable def segMax (vs : List ℝ) (ids : List ℕ) (n : ℕ) : List ℝ :=
  (List.range n).map (fun g =>
    ((((vs.zip ids).filter (fun p => p.2 = g)).map Prod.fst).max?).getD 0)

/-- Embeds `jnp.nan_to_num` over idealized reals: no NaN or infinity arises in
this pipeline (each gathered normalizer is a non-empty sum of strictly
positive exponentials), so the map is the identity on `ℝ`. -/
def nan_to_num (x : ℝ) : ℝ := x

/-- Embeds `syn2post_softmax`: per-group max subtraction, exponentiation, per-group
sum as normalizer, gather-divide, NaN-to-zero. -/
noncomputable def syn2post_softmax (syn_values : List ℝ) (post_ids : List ℕ)
    (post_num : ℕ) : List ℝ :=
  let syn_maxs := segMax syn_values post_ids post_num
  let shifted := List.zipWith (fun v i => v - syn_maxs.getD i 0) syn_values post_ids
  let expd := shifted.map Real.exp
  let normalizers := segReduce (· + ·) 0 expd post_ids post_num
  let softmax := List.zipWith (fun v i => v / normalizers.getD i 0) expd post_ids
  softmax.map nan_to_num

/-- The softmax pipeline applied after subtracting an arbitrary per-group
baseline `m`: the baseline cancels, leaving each position's exponential
divided by the sum of the exponentials of its group. -/
theorem softmax_pipeline_closed (vs : List ℝ) (ids : List ℕ) (n : ℕ)
    (hlen : vs.length = ids.length) (hids : ∀ i ∈ ids, i < n) (m : ℕ → ℝ) :
    (List.zipWith
        (fun v i =>
          v / (segReduce (· + ·) 0
                ((vs.zip ids).map (fun p => Real.exp (p.1 - m p.2))) ids n).getD i 0)
        ((vs.zip ids).map (fun p => Real.exp (p.1 - m p.2))) ids)
      = (vs.zip ids).map (fun p =>
          Real.exp p.1 /
            (((vs.zip ids).filter (fun q => q.2 = p.2)).map (fun q => Real.exp q.1)).sum) := by
  have hexpLen : ((vs.zip ids).map (fun p => Real.exp (p.1 - m p.2))).length = ids.length := by
    simp [List.length_zip, hlen]
  rw [zipWith_eq_map_zip, map_zip_zip_self _ _ _ hlen, List.map_map]
  refine List.map_congr_left ?_
  intro p hp
  have hpids : p.2 ∈ ids := (List.of_mem_zip hp).2
  have hpn : p.2 < n := hids _ hpids
  have hnorm : (segReduce (· + ·) 0
        ((vs.zip ids).map (fun q => Real.exp (q.1 - m q.2))) ids n).getD p.2 0
      = (((vs.zip ids).filter (fun q => q.2 = p.2)).map
          (fun q => Real.exp (q.1 - m q.2))).sum := by
    rw [segSum_getD _ _ _ _ hpn]
    rw [map_zip_zip_self _ _ _ hlen]
    rw [List.filter_map, List.map_map]
    have hpred : ((fun q : ℝ × ℕ => decide (q.2 = p.2)) ∘
          (fun q : ℝ × ℕ => (Real.exp (q.1 - m q.2), q.2)))
        = (fun q : ℝ × ℕ => decide (q.2 = p.2)) := by
      funext q
      rfl
    rw [hpred]
    rfl
  simp only [Function.comp_apply, hnorm]
  have hsum : (((vs.zip ids).filter (fun q => q.2 = p.2)).map
        (fun q => Real.exp (q.1 - m q.2))).sum
      = (((vs.zip ids).filter (fun q => q.2 = p.2)).map
          (fun q => Real.exp q.1 * (Real.exp (m p.2))⁻¹)).sum := by
    refine congrArg List.sum (List.map_congr_left ?_)
    intro q hq
    have hq2 : q.2 = p.2 := by
      have := (List.mem_filter.mp hq).2
      simpa using this
    rw [hq2, Real.exp_sub, div_eq_mul_inv]
  rw [hsum, List.sum_map_mul_right, Real.exp_sub, div_eq_mul_inv]
  exact mul_div_mul_right _ _ (inv_ne_zero (Real.exp_ne_zero _))

/-- Closed form of `syn2post_softmax`: position `i` holds
`exp vᵢ / Σ_(j in the same group) exp vⱼ` — the per-group max subtraction
cancels exactly over the reals. -/
theorem syn2post_softmax_closed (vs : List ℝ) (ids : List ℕ) (n : ℕ)
    (hlen : vs.length = ids.length) (hids : ∀ i ∈ ids, i < n) :
    syn2post_softmax vs ids n
      = (vs.zip ids).map (fun p =>
          Real.exp p.1 /
            (((vs.zip ids).filter (fun q => q.2 = p.2)).map (fun q => Real.exp q.1)).sum) := by
  have hdef : syn2post_softmax vs ids n
      = (List.zipWith
          (fun v i =>
            v / (segReduce (· + ·) 0
                  ((vs.zip ids).map
                    (fun p => Real.exp (p.1 - (segMax vs ids n).getD p.2 0))) ids n).getD i 0)
          ((vs.zip ids).map
            (fun p => Real.exp (p.1 - (segMax vs ids n).getD p.2 0))) ids).map nan_to_num := by
    unfold syn2post_softmax
    dsimp only
    rw [zipWith_eq_map_zip (fun v i => v - (segMax vs ids n).getD i 0) vs ids, List.map_map]
    rfl
  rw [hdef, softmax_pipeline_closed vs ids n hlen hids
    (fun g => (segMax vs ids n).getD g 0)]
  simp [nan_to_num]

/-- C9: adding a constant `c` to exactly the values whose group id is `g0`
leaves the `syn2post_softmax` output unchanged, exactly, over idealized real
arithmetic: within group `g0` both the numerator and the normalizer pick up
the common factor `exp c`, which cancels, and every other group is
untouched. -/
theorem syn2post_softmax_shift_invariant (vs : List ℝ) (ids : List ℕ) (n : ℕ)
    (c : ℝ) (g0 : ℕ) (hlen : vs.length = ids.length) (hids : ∀ i ∈ ids, i < n) :
    syn2post_softmax (List.zipWith (fun v i => if i = g0 then v + c else v) vs ids) ids n
      = syn2post_softmax vs ids n := by
  have hvs' : List.zipWith (fun v i => if i = g0 then v + c else v) vs ids
      = (vs.zip ids).map (fun p => if p.2 = g0 then p.1 + c else p.1) :=
    zipWith_eq_map_zip _ vs ids
  have hlen' : (List.zipWith (fun v i => if i = g0 then v + c else v) vs ids).length
      = ids.length := by
    simp [List.length_zipWith, hlen]
  rw [syn2post_softmax_closed _ ids n (by simpa [hlen] using hlen') hids,
    syn2post_softmax_closed vs ids n hlen hids]
  rw [hvs', map_zip_zip_self _ vs ids hlen, List.map_map]
  refine List.map_congr_left ?_
  intro p hp
  simp only [Function.comp_apply]
  rw [List.filter_map, List.map_map]
  have hpred : ((fun r : ℝ × ℕ => decide (r.2 = p.2)) ∘
        (fun q : ℝ × ℕ => (if q.2 = g0 then q.1 + c else q.1, q.2)))
      = (fun q : ℝ × ℕ => decide (q.2 = p.2)) := by
    funext q
    rfl
  rw [hpred]
  by_cases hg : p.2 = g0
  · have hnum : (if p.2 = g0 then p.1 + c else p.1) = p.1 + c := by simp [hg]
    have hden : (((vs.zip ids).filter (fun q => q.2 = p.2)).map
          ((fun r : ℝ × ℕ => Real.exp r.1) ∘
            (fun q : ℝ × ℕ => (if q.2 = g0 then q.1 + c else q.1, q.2)))).sum
        = (((vs.zip ids).filter (fun q => q.2 = p.2)).map
            (fun q => Real.exp q.1 * Real.exp c)).sum := by
      refine congrArg List.sum (List.map_congr_left ?_)
      intro q hq
      have hq2 : q.2 = p.2 := by
        have := (List.mem_filter.mp hq).2
        simpa using this
      simp [Function.comp, hq2, hg, Real.exp_add]
    rw [hden, List.sum_map_mul_right, hnum, Real.exp_add]
    exact mul_div_mul_right _ _ (Real.exp_ne_zero c)
  · have hnum : (if p.2 = g0 then p.1 + c else p.1) = p.1 := by simp [hg]
    have hden : (((vs.zip ids).filter (fun q => q.2 = p.2)).map
          ((fun r : ℝ × ℕ => Real.exp r.1) ∘
            (fun q : ℝ × ℕ => (if q.2 = g0 then q.1 + c else q.1, q.2)))).sum
        = (((vs.zip ids).filter (fun q => q.2 = p.2)).map
            (fun q => Real.exp q.1)).sum := by
      refine congrArg List.sum (List.map_congr_left ?_)
      intro q hq
      have hq2 : q.2 = p.2 := by
        have := (List.mem_filter.mp hq).2
        simpa using this
      simp [Function.comp, hq2, hg]
    rw [hden, hnum]

/-- Witness for C9: shifting group `0` of `[1,2,3]` (groups `[0,0,1]`) by
`5` leaves the softmax output unchanged. -/
theorem syn2post_softmax_shift_witness :
    (([1, 2, 3] : List ℝ).length = ([0, 0, 1] : List ℕ).length ∧
      ∀ i ∈ ([0, 0, 1] : List ℕ), i < 2) ∧
    syn2post_softmax
        (List.zipWith (fun v i => if i = 0 then v + 5 else v) ([1, 2, 3] : List ℝ) [0, 0, 1])
        [0, 0, 1] 2
      = syn2post_softmax [1, 2, 3] [0, 0, 1] 2 :=
  ⟨⟨rfl, by decide⟩,
    syn2post_softmax_shift_invariant [1, 2, 3] [0, 0, 1] 2 5 0 rfl (by decide)⟩

end BrainPy
